import Mathlib

/-!
Verification development for the aurodomus-backend scraping service.

The definitions below are a shallow embedding of the TypeScript sources:
  - src/scraper/parsers/base.parser.ts   (parsePrice, normalizeUnit, fetchHtml, scrape)
  - src/scraper/parsers/moro.parser.ts   (tiered price resolution, de-duplication)
  - src/scraper/parsers/gvs-croatia.parser.ts (tiered price resolution, de-duplication)
  - src/scraper/parsers/plemenit.parser.ts (de-duplication)
  - src/scraper/scraper.service.ts       (ScraperService.scrapeAll, getCurrentResults)

JavaScript numbers are modelled as rationals, JS strings as Lean strings or
lists of characters, `null`/`undefined` as `Option`, and JS truthiness is
modelled explicitly where the code branches on it (a number is falsy exactly
when it is 0, a string exactly when it is empty).
-/

namespace Aurodomus

/-! ### JS truthiness helpers -/

/-- Truthiness of a JS value that is either `null`/`undefined` or a number:
`0` is falsy, every other number is truthy. -/
def jsTruthyQ : Option ℚ → Bool
  | none => false
  | some x => x != 0

/-- Truthiness of a JS value that is either `null`/`undefined` or a string:
the empty string is falsy. -/
def jsTruthyStr : Option String → Bool
  | none => false
  | some s => s != ""

/-- The JS expression `a || b` on number-or-null values: returns `a` when
truthy, otherwise `b`. -/
def jsOrQ (a b : Option ℚ) : Option ℚ := if jsTruthyQ a then a else b

/-! ### BaseParser.parsePrice (base.parser.ts lines 93-169)

The two cleaning regexes (`replace(/[€$£¥\s]/gi, '').trim()` followed by
`replace(/[^\d.,-]/g, '')`) compose to: keep exactly the digits, dots,
commas and minus signs.  The intermediate `trim` only removes whitespace,
which the second regex removes anyway, so the composition is one filter. -/

/-- Characters surviving the two cleaning regexes of `parsePrice`. -/
def keepPriceChar (c : Char) : Bool :=
  c.isDigit || c == '.' || c == ',' || c == '-'

/-- JS `String.prototype.lastIndexOf` for a single character, -1 if absent. -/
def lastIndexOfChar (l : List Char) (c : Char) : Int :=
  match (l.reverse).findIdx? (fun x => x == c) with
  | none => -1
  | some i => (l.length : Int) - 1 - (i : Int)

/-- JS `str.replace(x, y)` with plain-string arguments: replaces only the
first occurrence. -/
def replaceFirstChar : List Char → Char → Char → List Char
  | [], _, _ => []
  | x :: xs, a, b => if x = a then b :: xs else x :: replaceFirstChar xs a b

/-- JS `str.replace(x, '')` with a plain-string argument: drops only the
first occurrence. -/
def removeFirstChar : List Char → Char → List Char
  | [], _ => []
  | x :: xs, a => if x = a then xs else x :: removeFirstChar xs a

/-- The recombination `parts.slice(0, -1).join('') + '.' + parts[parts.length - 1]`
used when several separators are grouping separators. -/
def rejoinThousands (parts : List (List Char)) : List Char :=
  (parts.dropLast).flatten ++ '.' :: (parts.getLast?).getD []

/-- Value of a digit string read in base 10 (JS `parseFloat` integer part). -/
def digitsVal (l : List Char) : ℕ :=
  l.foldl (fun n c => 10 * n + (c.toNat - 48)) 0

/-- Decomposition step of JS `parseFloat` restricted to the character set
that can reach it here (digits and at most one dot, no sign, no exponent):
the integer-part digits and the fraction-part digits of the longest numeric
prefix, `none` when there are no digits at all around a leading dot
(`parseFloat` yields `NaN` there). -/
def floatParts (l : List Char) : Option (List Char × List Char) :=
  let intPart := l.takeWhile Char.isDigit
  let rest := l.drop intPart.length
  match rest with
  | '.' :: rest2 =>
    let fracPart := rest2.takeWhile Char.isDigit
    if intPart.isEmpty && fracPart.isEmpty then none else some (intPart, fracPart)
  | _ => if intPart.isEmpty then none else some (intPart, [])

/-- JS `parseFloat` on the decomposed digit groups. -/
def parseFloatPrefix (l : List Char) : Option ℚ :=
  (floatParts l).map fun p =>
    (digitsVal p.1 : ℚ) + (digitsVal p.2 : ℚ) / (10 : ℚ) ^ p.2.length

/-- The character-level cleaning pipeline of `BaseParser.parsePrice`
(base.parser.ts 97-165): strip to digits/dots/commas/minus, disambiguate
decimal versus thousands separators, strip to digits/dots, and collapse
surplus dots. -/
def cleanPriceText (s : List Char) : List Char :=
  let cleaned := s.filter keepPriceChar
  let lastDot := lastIndexOfChar cleaned '.'
  let lastComma := lastIndexOfChar cleaned ','
  let dotCount := cleaned.count '.'
  let commaCount := cleaned.count ','
  let cleaned2 :=
    if lastComma < lastDot then
      if dotCount = 1 ∧ commaCount = 0 then cleaned
      else if 1 < dotCount ∧ commaCount = 0 then rejoinThousands (cleaned.splitOn '.')
      else cleaned.filter (fun c => c != ',')
    else if lastDot < lastComma then
      if commaCount = 1 ∧ dotCount = 0 then replaceFirstChar cleaned ',' '.'
      else if 1 < commaCount ∧ dotCount = 0 then rejoinThousands (cleaned.splitOn ',')
      else replaceFirstChar (cleaned.filter (fun c => c != '.')) ',' '.'
    else if cleaned.contains ',' then replaceFirstChar cleaned ',' '.'
    else if cleaned.contains '.' then
      if dotCount = 1 then
        let parts := cleaned.splitOn '.'
        let p0 := parts.headD []
        let p1 := (parts.drop 1).headD []
        if parts.length = 2 ∧ p1.length ≤ 2 then cleaned
        else if p1.length = 3 ∧ 3 < p0.length then removeFirstChar cleaned '.'
        else cleaned
      else cleaned
    else cleaned
  let cleaned3 := cleaned2.filter (fun c => c.isDigit || c == '.')
  let parts := cleaned3.splitOn '.'
  if 2 < parts.length then rejoinThousands parts else cleaned3

/-- Embedding of `BaseParser.parsePrice` (base.parser.ts 93-169): empty
input is falsy and returns `null` at once; otherwise clean the text, parse
it as a float, and reject `NaN` and values at or below zero. -/
def parsePriceChars (s : List Char) : Option ℚ :=
  if s.isEmpty then none else
  match parseFloatPrefix (cleanPriceText s) with
  | none => none
  | some q => if q ≤ 0 then none else some q

/-- Entry point of the embedded `parsePrice` on Lean strings. -/
def parsePrice (s : String) : Option ℚ := parsePriceChars s.data

/-! ### BaseParser.normalizeUnit (base.parser.ts 174-191) -/

/-- The whitespace characters removed by JS `String.prototype.trim` that
can occur in this codebase (ASCII whitespace and the no-break space). -/
def isJsSpace (c : Char) : Bool :=
  c == ' ' || c == '\t' || c == '\n' || c == '\r' || c == '\x0b' || c == '\x0c' || c == ' '

/-- JS `trim`: drop leading and trailing whitespace. -/
def trimChars (l : List Char) : List Char :=
  ((l.dropWhile isJsSpace).reverse.dropWhile isJsSpace).reverse

/-- JS `toLowerCase` followed by `trim`, on the character list of a string.
`Char.toLower` matches `toLowerCase` on the ASCII inputs that occur here. -/
def toLowerTrim (s : String) : String :=
  ⟨trimChars (s.data.map Char.toLower)⟩

/-- The synonym table `unitMap` of `normalizeUnit`, in source order. -/
def unitTable : List (String × String) :=
  [("g", "gram"), ("gram", "gram"), ("grams", "gram"), ("gr", "gram"),
   ("oz", "ounce"), ("ounce", "ounce"), ("ounces", "ounce"),
   ("kg", "kg"), ("kilogram", "kg"), ("kilograms", "kg"), ("kilo", "kg")]

/-- Embedding of `BaseParser.normalizeUnit`: lower-case, trim, look the
result up in the synonym table (`unitMap[normalized] || normalized`; every
table value is a nonempty, hence truthy, string). -/
def normalizeUnit (unit : String) : String :=
  let normalized := toLowerTrim unit
  match unitTable.lookup normalized with
  | some u => u
  | none => normalized

/-! ### Data model (price.interface.ts, scraper.service.ts)

`PriceEntry` carries the fields the interface declares plus the
`regularPrice`/`discountedPrice` fields the vendor parsers populate.
`Date` values are modelled as natural-number timestamps. -/

structure PriceEntry where
  unit : String
  buyPrice : Option ℚ := none
  sellPrice : Option ℚ := none
  price : Option ℚ := none
  regularPrice : Option ℚ := none
  discountedPrice : Option ℚ := none
  productTitle : Option String := none
  productLink : Option String := none
deriving DecidableEq, Repr

structure VendorPriceData where
  vendor : String
  url : String
  scrapedAt : ℕ
  prices : List PriceEntry
  error : Option String := none
deriving DecidableEq, Repr

structure ScraperResult where
  vendor : String
  success : Bool
  data : Option VendorPriceData := none
  error : Option String := none
deriving DecidableEq, Repr

inductive ProgressStatus where
  | pending
  | scraping
  | completed
  | error
deriving DecidableEq, Repr

structure ScrapingProgress where
  vendor : String
  status : ProgressStatus
  progress : ℚ
  error : Option String := none
deriving DecidableEq, Repr

/-! ### BaseParser.fetchHtml (base.parser.ts 27-84)

One network attempt either yields an HTML body or an error message.  The
loop makes up to `retryAttempts + 1` attempts; the list argument is the
outcome each successive GET would produce, with exactly one element per
possible attempt. -/

inductive AttemptResult where
  | ok (body : String)
  | err (msg : String)
deriving DecidableEq, Repr

/-- The error message built at base.parser.ts 81-83 when every attempt
failed: vendor name, total attempt count, and the last underlying message. -/
def fetchErrorMessage (vendor : String) (total : ℕ) (lastErr : String) : String :=
  "Failed to fetch " ++ vendor ++ " after " ++ toString total ++ " attempts: " ++ lastErr

/-- The retry loop of `fetchHtml`.  Returns the overall result, the number
of GET attempts actually made, and the list of inter-attempt delays slept
(base.parser.ts 76: one `retryDelay` sleep after each failed attempt that
is not the last).  `lastErr` tracks the `lastError` variable. -/
def fetchHtmlGo (vendor : String) (total retryDelay : ℕ) :
    List AttemptResult → String → Except String String × ℕ × List ℕ
  | [], lastErr => (.error (fetchErrorMessage vendor total lastErr), 0, [])
  | .ok body :: _, _ => (.ok body, 1, [])
  | .err m :: rest, _ =>
    let r := fetchHtmlGo vendor total retryDelay rest m
    (r.1, r.2.1 + 1, if rest.isEmpty then r.2.2 else retryDelay :: r.2.2)

/-- Embedding of `BaseParser.fetchHtml`: `totalAttempts = retryAttempts + 1`
GET attempts at most, first success wins, and exhaustion throws the
`fetchErrorMessage`.  The `attempts` list must have length
`retryAttempts + 1` (one entry per attempt the loop could make). -/
def fetchHtml (vendor : String) (retryAttempts retryDelay : ℕ)
    (attempts : List AttemptResult) : Except String String × ℕ × List ℕ :=
  fetchHtmlGo vendor (retryAttempts + 1) retryDelay attempts ""

/-! ### BaseParser.scrape (base.parser.ts 216-369)

The overall vendor run: the fetch either yields HTML or throws, then
`this.parse(html)` either yields entries or throws; both failure modes are
caught by the surrounding try/catch and turned into a `VendorPriceData`
with an error message and no prices. -/

def scrapeModel (vendorName vendorUrl : String) (now : ℕ)
    (fetchResult : Except String String)
    (parse : String → Except String (List PriceEntry)) : VendorPriceData :=
  match fetchResult with
  | .error e =>
    { vendor := vendorName, url := vendorUrl, scrapedAt := now, prices := [], error := some e }
  | .ok html =>
    match parse html with
    | .error e =>
      { vendor := vendorName, url := vendorUrl, scrapedAt := now, prices := [], error := some e }
    | .ok ps =>
      { vendor := vendorName, url := vendorUrl, scrapedAt := now, prices := ps, error := none }

/-! ### Progress reporting traces (base.parser.ts 39-79 and 216-369)

The sequence of values delivered to the progress callback during one
vendor run.  `fetchTrace` follows the retry loop of `fetchHtml`: each
attempt reports 0,5,10,15,20,25 before the GET; a successful GET then
reports 60,65,70,75,80,85,90,95,100; a failed GET that still has retries
left reports 40,45,50,55 before the next attempt.  The boolean list holds
one success flag per possible attempt (`retryAttempts + 1` entries). -/

def preAttemptTrace : List ℚ := [0, 5, 10, 15, 20, 25]

def successTrace : List ℚ := [60, 65, 70, 75, 80, 85, 90, 95, 100]

def retryTrace : List ℚ := [40, 45, 50, 55]

def fetchTrace : List Bool → List ℚ
  | [] => []
  | ok :: rest =>
    if ok then preAttemptTrace ++ successTrace
    else preAttemptTrace ++ (if rest.isEmpty then [] else retryTrace) ++ fetchTrace rest

/-- Whether the fetch loop succeeds at some attempt. -/
def fetchOk : List Bool → Bool
  | [] => false
  | ok :: rest => ok || fetchOk rest

/-- The mapping of fetch sub-progress into the scrape range, base.parser.ts
247-249: `12 + (fetchProgress / 100) * 20`, clamped into [0, 100]. -/
def mapFetchProgress (p : ℚ) : ℚ := min 100 (max 0 (12 + p / 100 * 20))

/-- Progress values reported by `scrape` (base.parser.ts 216-369): steps 1-2
report 0-12, the fetch reports its own trace mapped into 12-32, and on
fetch success the remaining steps report 32-100 (with 85 then 100 when
`this.parse` throws); when the fetch throws, the catch reports a single
100. -/
def scrapeTrace (attempts : List Bool) (parseOk : Bool) : List ℚ :=
  [0, 1, 2, 3, 4, 5, 6, 7, 8] ++ [8, 9, 10, 11, 12]
  ++ (fetchTrace attempts).map mapFetchProgress
  ++ (if fetchOk attempts then
        [32, 33, 34, 35, 36, 37, 38, 39, 40, 41, 42, 43, 44, 45, 46, 47, 48,
         48, 49, 50, 51, 52, 53, 54, 55]
        ++ (if parseOk then
              [56, 57, 58, 59, 60, 61, 62, 63, 64, 65, 66, 67, 68, 69, 70, 71, 72,
               73, 74, 75, 76, 77, 78, 79, 80, 81, 82, 83, 84, 85,
               86, 87, 88, 89, 90, 91, 92, 93, 94, 95, 96, 97, 98, 99, 100]
            else [85, 100])
      else [100])

/-- A list of rationals is non-decreasing from front to back. -/
def nondecreasing : List ℚ → Bool
  | [] => true
  | [_] => true
  | a :: b :: rest => decide (a ≤ b) && nondecreasing (b :: rest)

/-! ### Tiered price resolution (moro.parser.ts 215-232, gvs-croatia.parser.ts 259-276)

The block shared by the WooCommerce/Magento parsers that reconciles the
recovered `regularPrice`, `discountedPrice`, `currentPrice` values. -/

/-- Step 1 (moro.parser.ts 216-218): when there is a regular and a current
price, no discounted price, and the current price is below the regular one,
the current price is the discounted price. -/
def tierDiscount (regular0 discounted0 current0 : Option ℚ) : Option ℚ :=
  if jsTruthyQ regular0 && jsTruthyQ current0 && !jsTruthyQ discounted0
      && decide (current0.getD 0 < regular0.getD 0)
  then current0 else discounted0

/-- Step 2 (moro.parser.ts 221-223): a regular price with no current and no
discounted price becomes the current price.  `d1` is the discounted price
after step 1. -/
def tierCurrent (regular0 current0 d1 : Option ℚ) : Option ℚ :=
  if jsTruthyQ regular0 && !jsTruthyQ current0 && !jsTruthyQ d1
  then regular0 else current0

/-- Step 3 (moro.parser.ts 226-229): a regular price within 0.01 of the
discounted price is no real discount and is cleared. -/
def tierRegular (regular0 d1 : Option ℚ) : Option ℚ :=
  if jsTruthyQ regular0 && jsTruthyQ d1
      && decide (|regular0.getD 0 - d1.getD 0| < 1 / 100)
  then none else regular0

/-- Lines 215-229 of moro.parser.ts (identically 258-273 of
gvs-croatia.parser.ts): the three sequential reconciliation steps; note
step 2 reads the discounted price produced by step 1, and step 3 reads it
as well.  Returns the final (regular, discounted, current) triple. -/
def resolveTiered (regular0 discounted0 current0 : Option ℚ) :
    Option ℚ × Option ℚ × Option ℚ :=
  let discounted1 := tierDiscount regular0 discounted0 current0
  (tierRegular regular0 discounted1, discounted1,
   tierCurrent regular0 current0 discounted1)

/-- The guard `x !== null && x > 0 ? x : undefined` used when the entry is
pushed. -/
def posOrNone : Option ℚ → Option ℚ
  | none => none
  | some x => if 0 < x then some x else none

/-- Entry construction of moro.parser.ts 193-320 after price recovery:
resolve the tiered prices, compute
`finalMainPrice = discounted || current || regular || mainPrice` and
`price = sellPrice || finalMainPrice || buyPrice`, and push the entry when
`price !== null`. -/
def moroBuildEntry (unit : String) (title link : Option String)
    (regular0 discounted0 current0 main buy sell : Option ℚ) : Option PriceEntry :=
  let r := resolveTiered regular0 discounted0 current0
  let finalMain := jsOrQ r.2.1 (jsOrQ r.2.2 (jsOrQ r.1 main))
  let price := jsOrQ sell (jsOrQ finalMain buy)
  if price.isSome then
    some { unit := unit
           price := jsOrQ price none
           regularPrice := posOrNone r.1
           discountedPrice := posOrNone r.2.1
           buyPrice := jsOrQ buy none
           sellPrice := jsOrQ sell (jsOrQ price none)
           productTitle := title
           productLink := link }
  else none

/-- Fallback of gvs-croatia.parser.ts 255-257: a missing current price
falls back to the parsed main listing price before tier resolution. -/
def gvsCurrent0 (current0 : Option ℚ) (mainPrice : ℚ) : Option ℚ :=
  if !jsTruthyQ current0 then some mainPrice else current0

/-- Entry construction of gvs-croatia.parser.ts 162-381: the listing price
must have parsed (`mainPrice !== null`), a missing current price falls back
to the main price before tier resolution, `finalPrice = sellPrice ||
finalMainPrice`, and an implausible price per gram (above 500 or below 50)
drops the entry. -/
def gvsBuildEntry (unit : String) (title link : Option String) (weight : Option ℚ)
    (regular0 discounted0 current0 buy sell : Option ℚ) (main : Option ℚ) :
    Option PriceEntry :=
  match main with
  | none => none
  | some mainPrice =>
    let r := resolveTiered regular0 discounted0 (gvsCurrent0 current0 mainPrice)
    let finalMain := jsOrQ r.2.1 (jsOrQ r.2.2 (jsOrQ r.1 (some mainPrice)))
    let finalPrice := jsOrQ sell finalMain
    if finalPrice.isSome ∧ jsTruthyQ weight = true
        ∧ (500 < finalPrice.getD 0 / weight.getD 0 ∨ finalPrice.getD 0 / weight.getD 0 < 50)
    then none
    else
      some { unit := unit
             price := jsOrQ finalPrice none
             regularPrice := posOrNone r.1
             discountedPrice := posOrNone r.2.1
             buyPrice := if jsTruthyQ buy then buy else none
             sellPrice := jsOrQ finalPrice none
             productTitle := title
             productLink := link }

/-! ### De-duplication passes (plemenit.parser.ts 752-761, moro.parser.ts 345-354)

Each parser ends with a first-occurrence-wins scan over a `Set` of string
keys.  The keys are modelled as tuples; the JS key strings are built as
`unit + sep + number...` where the number parts contain no separator, so
two entries collide on the string key exactly when they collide on the
tuple. -/

/-- JS `Math.round`: round half toward positive infinity. -/
def jsRound (x : ℚ) : ℤ := ⌊x + 1 / 2⌋

/-- The moro.parser.ts key, line 349: the unit together with
`p.price || p.sellPrice || ''` (the empty string, here `none`, when both
are falsy). -/
def moroKey (p : PriceEntry) : String × Option ℚ :=
  (p.unit, jsOrQ p.price (jsOrQ p.sellPrice none))

/-- The plemenit.parser.ts key, line 756: the unit together with
`Math.round((p.sellPrice || p.price || 0) * 100) / 100` and
`Math.round((p.buyPrice || 0) * 100) / 100`. -/
def plemenitKey (p : PriceEntry) : String × ℚ × ℚ :=
  (p.unit,
   (jsRound ((jsOrQ p.sellPrice (jsOrQ p.price none)).getD 0 * 100) : ℚ) / 100,
   (jsRound ((jsOrQ p.buyPrice none).getD 0 * 100) : ℚ) / 100)

/-- The plemenit filter, line 757: only entries with a truthy
`price || sellPrice || buyPrice` survive. -/
def plemenitKeep (p : PriceEntry) : Bool :=
  jsTruthyQ p.price || jsTruthyQ p.sellPrice || jsTruthyQ p.buyPrice

/-- First-occurrence-wins de-duplication over a set of already-seen keys,
with an additional keep-filter (the `seen.has` / `seen.add` pattern of the
parsers; the key is added to `seen` only when the entry is kept, exactly as
in the source). -/
def dedupKeep {κ : Type} [DecidableEq κ] (key : PriceEntry → κ) (keep : PriceEntry → Bool) :
    List κ → List PriceEntry → List PriceEntry
  | _, [] => []
  | seen, p :: ps =>
    if key p ∉ seen ∧ keep p = true then p :: dedupKeep key keep (key p :: seen) ps
    else dedupKeep key keep seen ps

/-- The final de-duplication of `MoroParser.parse` (moro.parser.ts 345-354). -/
def moroDedup (l : List PriceEntry) : List PriceEntry :=
  dedupKeep moroKey (fun _ => true) [] l

/-- The final de-duplication of `PlemenitParser.parse`
(plemenit.parser.ts 752-761). -/
def plemenitDedup (l : List PriceEntry) : List PriceEntry :=
  dedupKeep plemenitKey plemenitKeep [] l

/-! ### ScraperService (scraper.service.ts)

The orchestrator state: the cache `vendor → VendorPriceData`, the
single-flight flag, and the progress table `vendor → ScrapingProgress`.
JS `Map` objects are modelled as association lists; `Map.set` overwrites in
place, keeping insertion order, and `Map.values()` iterates in insertion
order. -/

/-- JS `Map.prototype.set`: overwrite in place or append at the end. -/
def mapSet {α : Type} : List (String × α) → String → α → List (String × α)
  | [], k, v => [(k, v)]
  | (k1, v1) :: rest, k, v =>
    if k1 = k then (k, v) :: rest else (k1, v1) :: mapSet rest k v

/-- JS `Map.prototype.get`. -/
def mapGet {α : Type} : List (String × α) → String → Option α
  | [], _ => none
  | (k1, v1) :: rest, k => if k1 = k then some v1 else mapGet rest k

structure OrchestratorState where
  cachedPrices : List (String × VendorPriceData) := []
  isScraping : Bool := false
  scrapingProgress : List (String × ScrapingProgress) := []
deriving DecidableEq, Repr

/-- Progress-table seeding at cycle start (scraper.service.ts 99-106):
clear, then one `pending, 0` record per parser. -/
def seedProgress (vendors : List String) : List (String × ScrapingProgress) :=
  vendors.foldl (fun m v => mapSet m v ⟨v, .pending, 0, none⟩) []

/-- Handling of one vendor inside the cycle (scraper.service.ts 114-177):
set the progress record to `scraping, 0`, await the parser; a resolved
`VendorPriceData` with a truthy `error` leaves the cache alone and marks
`error, 100`; a resolved value with no (or an empty) error is written to
the cache under `data.vendor` and marked `completed, 100`; a rejected
promise is caught, leaves the cache alone and marks `error, 100` with the
exception message. -/
def processVendor (st : OrchestratorState) (vendorName : String)
    (outcome : Except String VendorPriceData) : OrchestratorState × ScraperResult :=
  let st1 := { st with
    scrapingProgress := mapSet st.scrapingProgress vendorName
      ⟨vendorName, .scraping, 0, none⟩ }
  match outcome with
  | .ok data =>
    if jsTruthyStr data.error then
      ({ st1 with
           scrapingProgress := mapSet st1.scrapingProgress vendorName
             ⟨vendorName, .error, 100, data.error⟩ },
       { vendor := data.vendor, success := false, error := data.error })
    else
      ({ st1 with
           cachedPrices := mapSet st1.cachedPrices data.vendor data
           scrapingProgress := mapSet st1.scrapingProgress vendorName
             ⟨vendorName, .completed, 100, none⟩ },
       { vendor := data.vendor, success := true, data := some data })
  | .error msg =>
    ({ st1 with
         scrapingProgress := mapSet st1.scrapingProgress vendorName
           ⟨vendorName, .error, 100, some msg⟩ },
     { vendor := vendorName, success := false, error := some msg })

/-- All vendor runs of one cycle.  The per-vendor writes go to distinct
keys, so the concurrent interleaving of the real code reaches the same
final cache and progress table as this sequential fold; `out` gives the
settled outcome of each vendor run. -/
def runVendors : OrchestratorState → List String →
    (String → Except String VendorPriceData) → OrchestratorState × List ScraperResult
  | st, [], _ => (st, [])
  | st, v :: vs, out =>
    let pr := processVendor st v (out v)
    let rest := runVendors pr.1 vs out
    (rest.1, pr.2 :: rest.2)

/-- `ScraperService.getCurrentResults` (scraper.service.ts 219-226):
one `ScraperResult` per cached value, `success = !data.error`. -/
def getCurrentResults (st : OrchestratorState) : List ScraperResult :=
  st.cachedPrices.map fun kv =>
    { vendor := kv.2.vendor
      success := !jsTruthyStr kv.2.error
      data := if jsTruthyStr kv.2.error then none else some kv.2
      error := kv.2.error }

/-- The state right after the entry guard of `scrapeAll`: flag up, progress
table cleared and re-seeded (scraper.service.ts 95-106). -/
def dispatchState (st : OrchestratorState) (vendors : List String) : OrchestratorState :=
  { st with isScraping := true, scrapingProgress := seedProgress vendors }

/-- `ScraperService.scrapeAll` (scraper.service.ts 89-207): the entry guard
returns the current results untouched when a cycle is in flight; otherwise
the flag goes up, progress is seeded, all vendors run, and the `finally`
block lowers the flag even when the aggregation after `allSettled` throws
(modelled by `aggFails`).  The delayed progress-table clear (a `setTimeout`
three seconds after the cycle) is outside the cycle and not modelled. -/
def scrapeAllModel (st : OrchestratorState) (vendors : List String)
    (out : String → Except String VendorPriceData) (aggFails : Bool) :
    OrchestratorState × Except String (List ScraperResult) :=
  if st.isScraping then (st, .ok (getCurrentResults st))
  else
    let run := runVendors (dispatchState st vendors) vendors out
    ({ run.1 with isScraping := false },
     if aggFails then .error "aggregation error" else .ok run.2)

/-- The cache invariant behind `getCurrentResults`: no cached value has a
truthy `error` (set and nonempty), because `scrapeAll` only writes values
whose `error` is falsy. -/
def cacheOk (st : OrchestratorState) : Bool :=
  st.cachedPrices.all fun kv => !jsTruthyStr kv.2.error

/-! ## Theorems -/

/-- Evaluation helper: a concrete run of the numeric tail of `parsePrice`. -/
theorem parsePriceChars_eval (s : List Char) (ip fp : List Char)
    (h : floatParts (cleanPriceText s) = some (ip, fp)) (hne : s.isEmpty = false)
    (q : ℚ) (hq : (digitsVal ip : ℚ) + (digitsVal fp : ℚ) / (10 : ℚ) ^ fp.length = q)
    (hpos : 0 < q) :
    parsePriceChars s = some q := by
  rw [parsePriceChars, hne]
  simp only [Bool.false_eq_true, if_false, parseFloatPrefix, h, Option.map_some']
  rw [hq, if_neg (not_le.mpr hpos)]

/-- C4: `parsePrice` yields the values of the specification examples:
`"146,50 €"` and `"146.50"` parse to 146.50, `"1.234,56 €"` and
`"1,234.56 €"` parse to 1234.56, and `"abc"` parses to `null`. -/
theorem parsePrice_examples :
    parsePrice "146,50 €" = some 146.5 ∧
    parsePrice "146.50" = some 146.5 ∧
    parsePrice "1.234,56 €" = some 1234.56 ∧
    parsePrice "1,234.56 €" = some 1234.56 ∧
    parsePrice "abc" = none := by
  refine ⟨?_, ?_, ?_, ?_, ?_⟩
  · exact parsePriceChars_eval _ "146".data "50".data (by decide) (by decide) _
      (by norm_num [show digitsVal "146".data = 146 from by decide,
        show digitsVal "50".data = 50 from by decide,
        show ("50".data).length = 2 from by decide]) (by norm_num)
  · exact parsePriceChars_eval _ "146".data "50".data (by decide) (by decide) _
      (by norm_num [show digitsVal "146".data = 146 from by decide,
        show digitsVal "50".data = 50 from by decide,
        show ("50".data).length = 2 from by decide]) (by norm_num)
  · exact parsePriceChars_eval _ "1234".data "56".data (by decide) (by decide) _
      (by norm_num [show digitsVal "1234".data = 1234 from by decide,
        show digitsVal "56".data = 56 from by decide,
        show ("56".data).length = 2 from by decide]) (by norm_num)
  · exact parsePriceChars_eval _ "1234".data "56".data (by decide) (by decide) _
      (by norm_num [show digitsVal "1234".data = 1234 from by decide,
        show digitsVal "56".data = 56 from by decide,
        show ("56".data).length = 2 from by decide]) (by norm_num)
  · rw [parsePrice, parsePriceChars]
    simp only [show ("abc".data).isEmpty = false from by decide, Bool.false_eq_true, if_false,
      parseFloatPrefix, show floatParts (cleanPriceText ['a', 'b', 'c']) = none from by decide,
      Option.map_none']

/-- C5 counterexample: the unit table has no entry for the Croatian word
for ounce, so `normalizeUnit` passes `"unca"` through unchanged instead of
mapping it to `"ounce"` as the claim states. -/
theorem normalizeUnit_unca_counterexample :
    normalizeUnit "unca" = "unca" ∧ "unca" ≠ "ounce" := by
  exact ⟨by decide, by decide⟩

/-- C5 (amended): `normalizeUnit` maps every synonym actually present in
the table (g/gram/grams/gr, kg/kilogram/kilograms/kilo, oz/ounce/ounces)
to its canonical value, is the identity on canonical input, and returns any
unrecognized input (including `"unca"`) lower-cased and trimmed. -/
theorem normalizeUnit_table :
    (normalizeUnit "g" = "gram" ∧ normalizeUnit "gram" = "gram" ∧
     normalizeUnit "grams" = "gram" ∧ normalizeUnit "gr" = "gram" ∧
     normalizeUnit "kg" = "kg" ∧ normalizeUnit "kilogram" = "kg" ∧
     normalizeUnit "kilograms" = "kg" ∧ normalizeUnit "kilo" = "kg" ∧
     normalizeUnit "oz" = "ounce" ∧ normalizeUnit "ounce" = "ounce" ∧
     normalizeUnit "ounces" = "ounce") ∧
    (normalizeUnit "gram" = "gram" ∧ normalizeUnit "kg" = "kg" ∧
     normalizeUnit "ounce" = "ounce") ∧
    (∀ s : String, unitTable.lookup (toLowerTrim s) = none →
      normalizeUnit s = toLowerTrim s) := by
  refine ⟨by decide, by decide, ?_⟩
  intro s h
  simp [normalizeUnit, h]

/-- C5 witness: the fall-through branch at a concrete unrecognized input. -/
theorem normalizeUnit_table_witness :
    unitTable.lookup (toLowerTrim "Unca ") = none ∧
      normalizeUnit "Unca " = toLowerTrim "Unca " :=
  ⟨by decide, normalizeUnit_table.2.2 "Unca " (by decide)⟩

/-- Idempotence of first-occurrence-wins de-duplication, for any key and
keep functions and any set of already-seen keys. -/
theorem dedupKeep_idem {κ : Type} [DecidableEq κ] (key : PriceEntry → κ)
    (keep : PriceEntry → Bool) :
    ∀ (l : List PriceEntry) (seen : List κ),
      dedupKeep key keep seen (dedupKeep key keep seen l) = dedupKeep key keep seen l := by
  intro l
  induction l with
  | nil => intro seen; rfl
  | cons p ps ih =>
    intro seen
    by_cases h : key p ∉ seen ∧ keep p = true
    · rw [dedupKeep, if_pos h, dedupKeep, if_pos h, ih]
    · rw [dedupKeep, if_neg h, ih]

/-- C9: the de-duplication passes closing `PlemenitParser.parse` and
`MoroParser.parse` are idempotent: applying them twice yields the same
sequence as applying them once. -/
theorem dedup_idempotent :
    (∀ l, plemenitDedup (plemenitDedup l) = plemenitDedup l) ∧
    (∀ l, moroDedup (moroDedup l) = moroDedup l) :=
  ⟨fun l => dedupKeep_idem plemenitKey plemenitKeep l [],
   fun l => dedupKeep_idem moroKey (fun _ => true) l []⟩

/-- C3: `BaseParser.scrape` is total — both a throwing fetch and a throwing
parse are converted into a returned `VendorPriceData` — its `error` field
is set exactly when the run failed, and a set `error` comes with an empty
price list. -/
theorem scrape_total_error_iff (vendorName vendorUrl : String) (now : ℕ)
    (fetchResult : Except String String)
    (parse : String → Except String (List PriceEntry)) :
    ((scrapeModel vendorName vendorUrl now fetchResult parse).error.isSome ↔
      ¬ ∃ html ps, fetchResult = .ok html ∧ parse html = .ok ps) ∧
    ((scrapeModel vendorName vendorUrl now fetchResult parse).error.isSome →
      (scrapeModel vendorName vendorUrl now fetchResult parse).prices = []) := by
  cases fetchResult with
  | error e => simp [scrapeModel]
  | ok html =>
    cases hp : parse html with
    | error e => simp [scrapeModel, hp]
    | ok ps => simp [scrapeModel, hp]

/-- C3 witness: a concrete failing fetch yields a returned error record
with no prices. -/
theorem scrape_total_error_iff_witness :
    (scrapeModel "Moro" "https://moro.example" 0 (.error "timeout")
      (fun _ => .ok [])).error.isSome = true ∧
    (scrapeModel "Moro" "https://moro.example" 0 (.error "timeout")
      (fun _ => .ok [])).prices = [] :=
  ⟨by decide,
   (scrape_total_error_iff "Moro" "https://moro.example" 0 (.error "timeout")
      (fun _ => .ok [])).2 (by decide)⟩

/-- The retry loop never makes more attempts than it has outcomes for. -/
theorem fetchHtmlGo_count_le (vendor : String) (total retryDelay : ℕ) :
    ∀ (l : List AttemptResult) (lastErr : String),
      (fetchHtmlGo vendor total retryDelay l lastErr).2.1 ≤ l.length := by
  intro l
  induction l with
  | nil => intro le; simp [fetchHtmlGo]
  | cons a rest ih =>
    intro le
    cases a with
    | ok body => simp [fetchHtmlGo]
    | err m =>
      simpa [fetchHtmlGo] using Nat.succ_le_succ (ih m)

/-- A nonempty attempt list produces at least one attempt. -/
theorem fetchHtmlGo_pos (vendor : String) (total retryDelay : ℕ) :
    ∀ (l : List AttemptResult) (lastErr : String), l ≠ [] →
      1 ≤ (fetchHtmlGo vendor total retryDelay l lastErr).2.1 := by
  intro l le hne
  cases l with
  | nil => exact absurd rfl hne
  | cons a rest =>
    cases a with
    | ok body => simp [fetchHtmlGo]
    | err m => simp [fetchHtmlGo]

/-- One fixed `retryDelay` sleep follows every attempt except the last one
made. -/
theorem fetchHtmlGo_delays (vendor : String) (total retryDelay : ℕ) :
    ∀ (l : List AttemptResult) (lastErr : String),
      (fetchHtmlGo vendor total retryDelay l lastErr).2.2 =
        List.replicate ((fetchHtmlGo vendor total retryDelay l lastErr).2.1 - 1) retryDelay := by
  intro l
  induction l with
  | nil => intro le; simp [fetchHtmlGo]
  | cons a rest ih =>
    intro le
    cases a with
    | ok body => simp [fetchHtmlGo]
    | err m =>
      by_cases hr : rest = []
      · subst hr; simp [fetchHtmlGo]
      · have h1 := fetchHtmlGo_pos vendor total retryDelay rest m hr
        obtain ⟨n, hn⟩ : ∃ n, (fetchHtmlGo vendor total retryDelay rest m).2.1 = n + 1 :=
          ⟨(fetchHtmlGo vendor total retryDelay rest m).2.1 - 1,
           (Nat.succ_pred_eq_of_pos h1).symm⟩
        simp only [fetchHtmlGo, List.isEmpty_eq_true]
        rw [if_neg hr, ih m, hn]
        simp [List.replicate_succ]

/-- The first successful attempt wins: if the first `k` outcomes are
failures and the next is a success, the loop returns that body after
exactly `k + 1` attempts. -/
theorem fetchHtmlGo_first_ok (vendor : String) (total retryDelay : ℕ) :
    ∀ (k : ℕ) (l : List AttemptResult) (lastErr body : String),
      (∀ i, i < k → ∃ m, l[i]? = some (.err m)) →
      l[k]? = some (.ok body) →
      (fetchHtmlGo vendor total retryDelay l lastErr).1 = .ok body ∧
      (fetchHtmlGo vendor total retryDelay l lastErr).2.1 = k + 1 := by
  intro k
  induction k with
  | zero =>
    intro l le body _ hk
    cases l with
    | nil => simp at hk
    | cons a rest =>
      rw [List.getElem?_cons_zero] at hk
      obtain rfl : a = .ok body := by injection hk
      simp [fetchHtmlGo]
  | succ k ih =>
    intro l le body hpre hk
    cases l with
    | nil => simp at hk
    | cons a rest =>
      obtain ⟨m, hm⟩ := hpre 0 (Nat.succ_pos k)
      rw [List.getElem?_cons_zero] at hm
      obtain rfl : a = .err m := by injection hm
      rw [List.getElem?_cons_succ] at hk
      have hrest := ih rest m body
        (fun i hi => by
          have := hpre (i + 1) (Nat.succ_lt_succ hi)
          rwa [List.getElem?_cons_succ] at this) hk
      refine ⟨?_, ?_⟩
      · simpa [fetchHtmlGo] using hrest.1
      · simpa [fetchHtmlGo] using hrest.2

/-- When every attempt fails, the loop throws the constructed message
carrying the last underlying error. -/
theorem fetchHtmlGo_all_err (vendor : String) (total retryDelay : ℕ) :
    ∀ (l : List AttemptResult) (lastErr lastMsg : String),
      (∀ a ∈ l, ∃ m, a = .err m) →
      (l.getLast? = some (.err lastMsg) ∨ (l = [] ∧ lastErr = lastMsg)) →
      (fetchHtmlGo vendor total retryDelay l lastErr).1 =
        .error (fetchErrorMessage vendor total lastMsg) := by
  intro l
  induction l with
  | nil =>
    intro le lm _ h
    rcases h with h | ⟨_, rfl⟩
    · simp at h
    · simp [fetchHtmlGo]
  | cons a rest ih =>
    intro le lm hall h
    obtain ⟨m, rfl⟩ := hall a (List.mem_cons_self a rest)
    have hres : (fetchHtmlGo vendor total retryDelay (AttemptResult.err m :: rest) le).1 =
        (fetchHtmlGo vendor total retryDelay rest m).1 := by
      simp [fetchHtmlGo]
    rw [hres]
    apply ih m lm (fun x hx => hall x (List.mem_cons_of_mem _ hx))
    cases rest with
    | nil =>
      rcases h with h | ⟨h, _⟩
      · rw [List.getLast?_singleton] at h
        have hml : m = lm := by
          injection h with h2
          injection h2
        exact Or.inr ⟨rfl, hml⟩
      · exact absurd h (by simp)
    | cons b rest2 =>
      rcases h with h | ⟨h, _⟩
      · rw [List.getLast?_cons_cons] at h
        exact Or.inl h
      · exact absurd h (by simp)

/-- C7: `fetchHtml` makes at most `retryAttempts + 1` GET attempts with one
fixed `retryDelay` sleep between consecutive attempts; the first successful
attempt returns its body with no further attempts; and when every attempt
fails it throws a message containing both the vendor name and the last
underlying error message. -/
theorem fetchHtml_retry_spec (vendor : String) (retryAttempts retryDelay : ℕ)
    (attempts : List AttemptResult) (hlen : attempts.length = retryAttempts + 1) :
    ((fetchHtml vendor retryAttempts retryDelay attempts).2.1 ≤ retryAttempts + 1) ∧
    ((fetchHtml vendor retryAttempts retryDelay attempts).2.2 =
      List.replicate ((fetchHtml vendor retryAttempts retryDelay attempts).2.1 - 1) retryDelay) ∧
    (∀ (k : ℕ) (body : String), (∀ i, i < k → ∃ m, attempts[i]? = some (.err m)) →
      attempts[k]? = some (.ok body) →
      (fetchHtml vendor retryAttempts retryDelay attempts).1 = .ok body ∧
      (fetchHtml vendor retryAttempts retryDelay attempts).2.1 = k + 1) ∧
    (∀ lastMsg : String, (∀ a ∈ attempts, ∃ m, a = .err m) →
      attempts.getLast? = some (.err lastMsg) →
      (fetchHtml vendor retryAttempts retryDelay attempts).1 =
        .error (fetchErrorMessage vendor (retryAttempts + 1) lastMsg) ∧
      (∃ p1 p2, fetchErrorMessage vendor (retryAttempts + 1) lastMsg = p1 ++ vendor ++ p2) ∧
      (∃ q1, fetchErrorMessage vendor (retryAttempts + 1) lastMsg = q1 ++ lastMsg)) := by
  refine ⟨?_, fetchHtmlGo_delays vendor (retryAttempts + 1) retryDelay attempts "", ?_, ?_⟩
  · show (fetchHtmlGo vendor (retryAttempts + 1) retryDelay attempts "").2.1 ≤ retryAttempts + 1
    have := fetchHtmlGo_count_le vendor (retryAttempts + 1) retryDelay attempts ""
    omega
  · intro k body hpre hk
    exact fetchHtmlGo_first_ok vendor (retryAttempts + 1) retryDelay k attempts "" body hpre hk
  · intro lastMsg hall hlast
    refine ⟨fetchHtmlGo_all_err vendor (retryAttempts + 1) retryDelay attempts "" lastMsg hall
        (Or.inl hlast), ?_, ?_⟩
    · exact ⟨"Failed to fetch ",
        " after " ++ toString (retryAttempts + 1) ++ " attempts: " ++ lastMsg,
        by simp [fetchErrorMessage, String.append_assoc]⟩
    · exact ⟨"Failed to fetch " ++ vendor ++ " after " ++ toString (retryAttempts + 1)
        ++ " attempts: ", rfl⟩

/-- C7 witness: with two retries configured, a refused first attempt and a
successful second one return the body after exactly two attempts. -/
theorem fetchHtml_retry_spec_witness :
    ([AttemptResult.err "refused", .ok "html", .err "x"].length = 2 + 1) ∧
    (fetchHtml "Moro" 2 1000 [.err "refused", .ok "html", .err "x"]).1 = .ok "html" ∧
    (fetchHtml "Moro" 2 1000 [.err "refused", .ok "html", .err "x"]).2.1 = 1 + 1 := by
  have h := (fetchHtml_retry_spec "Moro" 2 1000
      [.err "refused", .ok "html", .err "x"] (by decide)).2.2.1 1 "html"
    (fun i hi => by
      have hi0 : i = 0 := by omega
      subst hi0
      exact ⟨"refused", by decide⟩)
    (by decide)
  exact ⟨by decide, h.1, h.2⟩

/-- C8 counterexample: with the configured `retryAttempts = 2`, a run whose
first fetch attempt fails and whose second succeeds reports the retry
values 40-55 (mapped to 20-23) and then restarts the next attempt at fetch
progress 0 (mapped back to 12), so the progress sequence of that vendor run
is not monotonically non-decreasing. -/
theorem scrape_progress_counterexample :
    nondecreasing (scrapeTrace [false, true, true] true) = false := by
  have hm : (fetchTrace [false, true, true]).map mapFetchProgress =
      [12, 13, 14, 15, 16, 17, 20, 21, 22, 23, 12, 13, 14, 15, 16, 17,
       24, 25, 26, 27, 28, 29, 30, 31, 32] := by
    norm_num [fetchTrace, preAttemptTrace, retryTrace, successTrace, mapFetchProgress,
      min_def, max_def]
  simp only [scrapeTrace, hm]
  decide

/-- C8 (amended): the progress values reported during one vendor run form
a monotonically non-decreasing sequence from 0 to 100 whenever the first
fetch attempt settles the run (it succeeds, or it is the only configured
attempt), with or without a subsequent parse failure; a fetch retry resets
the mapped fetch sub-progress from 23 back to 12, breaking monotonicity. -/
theorem scrape_progress_monotone_no_retry :
    ∀ (attempts : List Bool) (parseOk : Bool),
      (attempts.head? = some true ∨ attempts = [false]) →
      nondecreasing (scrapeTrace attempts parseOk) = true ∧
      (scrapeTrace attempts parseOk).head? = some 0 ∧
      (scrapeTrace attempts parseOk).getLast? = some 100 := by
  intro attempts parseOk h
  rcases h with h | rfl
  · obtain ⟨rest, rfl⟩ : ∃ rest, attempts = true :: rest := by
      cases attempts with
      | nil => exact absurd h (by simp)
      | cons a rest =>
        rw [List.head?_cons] at h
        obtain rfl : a = true := by injection h
        exact ⟨rest, rfl⟩
    have hf : fetchTrace (true :: rest) = preAttemptTrace ++ successTrace := by
      simp [fetchTrace]
    have hok : fetchOk (true :: rest) = true := by simp [fetchOk]
    have hm : (preAttemptTrace ++ successTrace).map mapFetchProgress =
        [12, 13, 14, 15, 16, 17, 24, 25, 26, 27, 28, 29, 30, 31, 32] := by
      norm_num [preAttemptTrace, successTrace, mapFetchProgress, min_def, max_def]
    simp only [scrapeTrace, hf, hm, hok]
    cases parseOk <;> exact ⟨by decide, by decide, by decide⟩
  · have hf : fetchTrace [false] = preAttemptTrace := by simp [fetchTrace]
    have hok : fetchOk [false] = false := by simp [fetchOk]
    have hm : preAttemptTrace.map mapFetchProgress = [12, 13, 14, 15, 16, 17] := by
      norm_num [preAttemptTrace, mapFetchProgress, min_def, max_def]
    simp only [scrapeTrace, hf, hm, hok]
    cases parseOk <;> exact ⟨by decide, by decide, by decide⟩

/-- C8 witness: the run with an immediately successful fetch and a clean
parse is monotone from 0 to 100. -/
theorem scrape_progress_monotone_no_retry_witness :
    nondecreasing (scrapeTrace [true] true) = true ∧
    (scrapeTrace [true] true).head? = some 0 ∧
    (scrapeTrace [true] true).getLast? = some 100 :=
  scrape_progress_monotone_no_retry [true] true (Or.inl rfl)

/-- A positive value survives the push guard unchanged. -/
theorem posOrNone_some (x : Option ℚ) (r : ℚ) (h : posOrNone x = some r) :
    x = some r ∧ 0 < r := by
  cases x with
  | none => exact absurd h (by simp [posOrNone])
  | some v =>
    rw [posOrNone] at h
    by_cases hv : 0 < v
    · rw [if_pos hv] at h
      obtain rfl : v = r := by injection h
      exact ⟨rfl, hv⟩
    · rw [if_neg hv] at h
      exact absurd h (by simp)

/-- The collapse step guarantees the surviving regular price is at least
0.01 away from the discounted price. -/
theorem tierRegular_gap (r0 d1 : Option ℚ) (r d : ℚ)
    (h1 : tierRegular r0 d1 = some r) (hr : r ≠ 0)
    (h2 : d1 = some d) (hd : d ≠ 0) : 1 / 100 ≤ |r - d| := by
  subst h2
  rw [tierRegular] at h1
  by_cases hg : (jsTruthyQ r0 && jsTruthyQ (some d)
      && decide (|r0.getD 0 - (some d).getD 0| < 1 / 100)) = true
  · rw [if_pos hg] at h1
    exact absurd h1 (by simp)
  · rw [if_neg hg] at h1
    subst h1
    simp only [jsTruthyQ, Option.getD_some, Bool.and_eq_true, bne_iff_ne, ne_eq,
      decide_eq_true_eq, not_and] at hg
    exact not_lt.mp (by simpa using hg ⟨by simpa using hr, by simpa using hd⟩)

/-- C6 (amended): in every entry emitted by the Moro or GVS Croatia entry
builders in which both `regularPrice` and `discountedPrice` are set, the
two differ by at least 0.01, and recovered regular/discounted values closer
than 0.01 lead to the entry being emitted with `regularPrice` cleared; a
strict `discountedPrice < regularPrice` is not guaranteed (see the
counterexample, where inverted markup yields a discounted price above the
regular one). -/
theorem tiered_price_gap :
    (∀ (unit : String) (title link : Option String) (r0 d0 c0 main buy sell : Option ℚ)
       (e : PriceEntry),
        moroBuildEntry unit title link r0 d0 c0 main buy sell = some e →
        ∀ r d, e.regularPrice = some r → e.discountedPrice = some d →
          1 / 100 ≤ |r - d|) ∧
    (∀ (unit : String) (title link : Option String) (weight r0 d0 c0 buy sell main : Option ℚ)
       (e : PriceEntry),
        gvsBuildEntry unit title link weight r0 d0 c0 buy sell main = some e →
        ∀ r d, e.regularPrice = some r → e.discountedPrice = some d →
          1 / 100 ≤ |r - d|) ∧
    (∀ (r0 d0 c0 : Option ℚ) (r d : ℚ),
        r0 = some r → r ≠ 0 → (resolveTiered r0 d0 c0).2.1 = some d → d ≠ 0 →
        |r - d| < 1 / 100 → (resolveTiered r0 d0 c0).1 = none) := by
  refine ⟨?_, ?_, ?_⟩
  · intro unit title link r0 d0 c0 main buy sell e he r d hr hd
    rw [moroBuildEntry] at he
    split at he
    case isTrue =>
      obtain rfl : _ = e := by injection he
      simp only [resolveTiered] at hr hd
      obtain ⟨h1, hrpos⟩ := posOrNone_some _ _ hr
      obtain ⟨h2, hdpos⟩ := posOrNone_some _ _ hd
      exact tierRegular_gap _ _ r d h1 (ne_of_gt hrpos) h2 (ne_of_gt hdpos)
    case isFalse => exact absurd he (by simp)
  · intro unit title link weight r0 d0 c0 buy sell main e he r d hr hd
    cases main with
    | none => exact absurd he (by simp [gvsBuildEntry])
    | some mainPrice =>
      rw [gvsBuildEntry] at he
      split at he
      case isTrue => exact absurd he (by simp)
      case isFalse =>
        obtain rfl : _ = e := by injection he
        simp only [resolveTiered] at hr hd
        obtain ⟨h1, hrpos⟩ := posOrNone_some _ _ hr
        obtain ⟨h2, hdpos⟩ := posOrNone_some _ _ hd
        exact tierRegular_gap _ _ r d h1 (ne_of_gt hrpos) h2 (ne_of_gt hdpos)
  · intro r0 d0 c0 r d h0 hr h2 hd hlt
    subst h0
    simp only [resolveTiered] at h2 ⊢
    rw [tierRegular, if_pos]
    rw [h2]
    simp only [jsTruthyQ, Option.getD_some, Bool.and_eq_true, bne_iff_ne, ne_eq,
      decide_eq_true_eq]
    refine ⟨⟨by simpa using hr, by simpa using hd⟩, by simpa using hlt⟩

/-- Evaluation of the Moro entry builder on a regular price of 100 and a
discounted price of 50 recovered from the markup. -/
theorem moroBuildEntry_eval_100_50 :
    moroBuildEntry "gram" none none (some 100) (some 50) none none none none =
      some { unit := "gram", price := some 50, regularPrice := some 100,
             discountedPrice := some 50, buyPrice := none, sellPrice := some 50,
             productTitle := none, productLink := none } := by
  have hd : tierDiscount (some (100 : ℚ)) (some 50) none = some 50 := by decide
  have hg : (jsTruthyQ (some (100 : ℚ)) && jsTruthyQ (some (50 : ℚ))
      && decide (|(some (100 : ℚ)).getD 0 - (some (50 : ℚ)).getD 0| < 1 / 100)) = false := by
    have hn : ¬ |(some (100 : ℚ)).getD 0 - (some (50 : ℚ)).getD 0| < 1 / 100 := by
      norm_num
    rw [decide_eq_false hn, Bool.and_false]
  have hreg : tierRegular (some (100 : ℚ)) (some (50 : ℚ)) = some 100 := by
    rw [tierRegular, hg]
    simp
  simp only [moroBuildEntry, resolveTiered, hd, hreg]
  decide

/-- C6 witness: the emitted entry with both tiers set differs by at least
0.01 between them. -/
theorem tiered_price_gap_witness :
    moroBuildEntry "gram" none none (some 100) (some 50) none none none none =
      some { unit := "gram", price := some 50, regularPrice := some 100,
             discountedPrice := some 50, buyPrice := none, sellPrice := some 50,
             productTitle := none, productLink := none } ∧
    (1 / 100 : ℚ) ≤ |100 - 50| :=
  ⟨moroBuildEntry_eval_100_50,
   tiered_price_gap.1 "gram" none none (some 100) (some 50) none none none none _
     moroBuildEntry_eval_100_50 100 50 rfl rfl⟩

/-- C6 counterexample: a `del` price of 100 with an `ins` price of 200
(inverted sale markup) is emitted with `regularPrice = 100` and
`discountedPrice = 200`, and 200 is not strictly below 100 — the claimed
invariant `discountedPrice < regularPrice` fails. -/
theorem tiered_price_counterexample :
    moroBuildEntry "gram" none none (some 100) (some 200) none none none none =
      some { unit := "gram", price := some 200, regularPrice := some 100,
             discountedPrice := some 200, buyPrice := none, sellPrice := some 200,
             productTitle := none, productLink := none } ∧
    ¬ ((200 : ℚ) < 100) := by
  have hd : tierDiscount (some (100 : ℚ)) (some 200) none = some 200 := by decide
  have hg : (jsTruthyQ (some (100 : ℚ)) && jsTruthyQ (some (200 : ℚ))
      && decide (|(some (100 : ℚ)).getD 0 - (some (200 : ℚ)).getD 0| < 1 / 100)) = false := by
    have hn : ¬ |(some (100 : ℚ)).getD 0 - (some (200 : ℚ)).getD 0| < 1 / 100 := by
      norm_num
    rw [decide_eq_false hn, Bool.and_false]
  have hreg : tierRegular (some (100 : ℚ)) (some (200 : ℚ)) = some 100 := by
    rw [tierRegular, hg]
    simp
  constructor
  · simp only [moroBuildEntry, resolveTiered, hd, hreg]
    decide
  · norm_num

/-! ### Association-list map lemmas -/

theorem mapGet_mapSet_self {α : Type} (m : List (String × α)) (k : String) (v : α) :
    mapGet (mapSet m k v) k = some v := by
  induction m with
  | nil => simp [mapSet, mapGet]
  | cons kv rest ih =>
    by_cases h : kv.1 = k
    · simp [mapSet, mapGet, h]
    · simp only [mapSet]
      rw [if_neg h]
      simp only [mapGet]
      rw [if_neg h]
      exact ih

theorem mapGet_mapSet_ne {α : Type} (m : List (String × α)) (k k2 : String) (v : α)
    (h : k ≠ k2) : mapGet (mapSet m k v) k2 = mapGet m k2 := by
  induction m with
  | nil => simp [mapSet, mapGet, h]
  | cons kv rest ih =>
    by_cases h1 : kv.1 = k
    · simp only [mapSet]
      rw [if_pos h1]
      simp only [mapGet]
      rw [if_neg h, if_neg (h1 ▸ h)]
    · simp only [mapSet]
      rw [if_neg h1]
      simp only [mapGet]
      by_cases h2 : kv.1 = k2
      · rw [if_pos h2, if_pos h2]
      · rw [if_neg h2, if_neg h2]
        exact ih

theorem all_mapSet {α : Type} (m : List (String × α)) (k : String) (v : α)
    (p : String × α → Bool) (hm : m.all p = true) (hv : p (k, v) = true) :
    (mapSet m k v).all p = true := by
  induction m with
  | nil => simp [mapSet, hv]
  | cons kv rest ih =>
    rw [List.all_cons, Bool.and_eq_true] at hm
    by_cases h : kv.1 = k
    · simp only [mapSet]
      rw [if_pos h]
      simp [hv, hm.2]
    · simp only [mapSet]
      rw [if_neg h]
      simp [hm.1, ih hm.2]

/-! ### Per-vendor step lemmas -/

theorem processVendor_isScraping (st : OrchestratorState) (w : String)
    (out : Except String VendorPriceData) :
    (processVendor st w out).1.isScraping = st.isScraping := by
  cases out with
  | error msg => rfl
  | ok d =>
    simp only [processVendor]
    by_cases h : jsTruthyStr d.error = true
    · rw [if_pos h]
    · rw [if_neg h]

theorem processVendor_cache_ne (st : OrchestratorState) (w : String)
    (out : Except String VendorPriceData) (v : String)
    (hout : ∀ d, out = .ok d → d.vendor = w) (hne : w ≠ v) :
    mapGet (processVendor st w out).1.cachedPrices v = mapGet st.cachedPrices v := by
  cases out with
  | error msg => rfl
  | ok d =>
    simp only [processVendor]
    by_cases h : jsTruthyStr d.error = true
    · rw [if_pos h]
    · rw [if_neg h]
      exact mapGet_mapSet_ne _ _ _ _ (by rw [hout d rfl]; exact hne)

theorem processVendor_progress_ne (st : OrchestratorState) (w : String)
    (out : Except String VendorPriceData) (v : String) (hne : w ≠ v) :
    mapGet (processVendor st w out).1.scrapingProgress v = mapGet st.scrapingProgress v := by
  cases out with
  | error msg =>
    simp only [processVendor]
    rw [mapGet_mapSet_ne _ _ _ _ hne, mapGet_mapSet_ne _ _ _ _ hne]
  | ok d =>
    simp only [processVendor]
    by_cases h : jsTruthyStr d.error = true
    · rw [if_pos h]
      rw [mapGet_mapSet_ne _ _ _ _ hne, mapGet_mapSet_ne _ _ _ _ hne]
    · rw [if_neg h]
      rw [mapGet_mapSet_ne _ _ _ _ hne, mapGet_mapSet_ne _ _ _ _ hne]

theorem processVendor_err (st : OrchestratorState) (v msg : String) :
    (processVendor st v (.error msg)).1.cachedPrices = st.cachedPrices ∧
    mapGet (processVendor st v (.error msg)).1.scrapingProgress v =
      some ⟨v, .error, 100, some msg⟩ := by
  exact ⟨rfl, by simp only [processVendor]; exact mapGet_mapSet_self _ _ _⟩

theorem processVendor_ok_bad (st : OrchestratorState) (v : String) (d : VendorPriceData)
    (h : jsTruthyStr d.error = true) :
    (processVendor st v (.ok d)).1.cachedPrices = st.cachedPrices ∧
    mapGet (processVendor st v (.ok d)).1.scrapingProgress v =
      some ⟨v, .error, 100, d.error⟩ := by
  simp only [processVendor]
  rw [if_pos h]
  exact ⟨rfl, mapGet_mapSet_self _ _ _⟩

theorem processVendor_ok_good (st : OrchestratorState) (v : String) (d : VendorPriceData)
    (h : jsTruthyStr d.error = false) :
    (processVendor st v (.ok d)).1.cachedPrices = mapSet st.cachedPrices d.vendor d ∧
    mapGet (processVendor st v (.ok d)).1.scrapingProgress v =
      some ⟨v, .completed, 100, none⟩ := by
  simp only [processVendor]
  rw [if_neg (by rw [h]; exact Bool.false_ne_true)]
  exact ⟨rfl, mapGet_mapSet_self _ _ _⟩

/-! ### Cycle-level lemmas -/

theorem runVendors_isScraping (st : OrchestratorState) (vs : List String)
    (out : String → Except String VendorPriceData) :
    (runVendors st vs out).1.isScraping = st.isScraping := by
  induction vs generalizing st with
  | nil => rfl
  | cons w vs2 ih =>
    simp only [runVendors]
    rw [ih, processVendor_isScraping]

theorem runVendors_not_mem (st : OrchestratorState) (vs : List String)
    (out : String → Except String VendorPriceData) (v : String) (hv : v ∉ vs)
    (hout : ∀ w ∈ vs, ∀ d, out w = .ok d → d.vendor = w) :
    mapGet (runVendors st vs out).1.cachedPrices v = mapGet st.cachedPrices v ∧
    mapGet (runVendors st vs out).1.scrapingProgress v = mapGet st.scrapingProgress v := by
  induction vs generalizing st with
  | nil => exact ⟨rfl, rfl⟩
  | cons w vs2 ih =>
    have hwv : w ≠ v := fun h => hv (h ▸ List.mem_cons_self w vs2)
    have hv2 : v ∉ vs2 := fun h => hv (List.mem_cons_of_mem w h)
    have hout2 : ∀ w2 ∈ vs2, ∀ d, out w2 = .ok d → d.vendor = w2 :=
      fun w2 hw2 => hout w2 (List.mem_cons_of_mem w hw2)
    simp only [runVendors]
    have hres := ih (processVendor st w (out w)).1 hv2 hout2
    refine ⟨?_, ?_⟩
    · rw [hres.1, processVendor_cache_ne st w (out w) v
        (hout w (List.mem_cons_self w vs2)) hwv]
    · rw [hres.2, processVendor_progress_ne st w (out w) v hwv]

theorem runVendors_vendor (st : OrchestratorState) (vs : List String)
    (out : String → Except String VendorPriceData) (v : String)
    (hmem : v ∈ vs) (hnd : vs.Nodup)
    (hout : ∀ w ∈ vs, ∀ d, out w = .ok d → d.vendor = w) :
    (∀ msg, out v = .error msg →
       mapGet (runVendors st vs out).1.cachedPrices v = mapGet st.cachedPrices v ∧
       mapGet (runVendors st vs out).1.scrapingProgress v =
         some ⟨v, .error, 100, some msg⟩) ∧
    (∀ d, out v = .ok d → jsTruthyStr d.error = true →
       mapGet (runVendors st vs out).1.cachedPrices v = mapGet st.cachedPrices v ∧
       mapGet (runVendors st vs out).1.scrapingProgress v =
         some ⟨v, .error, 100, d.error⟩) ∧
    (∀ d, out v = .ok d → jsTruthyStr d.error = false →
       mapGet (runVendors st vs out).1.cachedPrices v = some d ∧
       mapGet (runVendors st vs out).1.scrapingProgress v =
         some ⟨v, .completed, 100, none⟩) := by
  induction vs generalizing st with
  | nil => exact absurd hmem (by simp)
  | cons w vs2 ih =>
    rw [List.nodup_cons] at hnd
    have hout2 : ∀ w2 ∈ vs2, ∀ d, out w2 = .ok d → d.vendor = w2 :=
      fun w2 hw2 => hout w2 (List.mem_cons_of_mem w hw2)
    by_cases hvw : v = w
    · subst hvw
      have hv2 : v ∉ vs2 := hnd.1
      simp only [runVendors]
      have hrest := runVendors_not_mem (processVendor st v (out v)).1 vs2 out v hv2 hout2
      refine ⟨?_, ?_, ?_⟩
      · intro msg hmsg
        rw [hmsg] at hrest ⊢
        have hp := processVendor_err st v msg
        exact ⟨by rw [hrest.1, hp.1], by rw [hrest.2, hp.2]⟩
      · intro d hd herr
        rw [hd] at hrest ⊢
        have hp := processVendor_ok_bad st v d herr
        exact ⟨by rw [hrest.1, hp.1], by rw [hrest.2, hp.2]⟩
      · intro d hd herr
        rw [hd] at hrest ⊢
        have hp := processVendor_ok_good st v d herr
        have hvend : d.vendor = v := hout v (List.mem_cons_self v vs2) d hd
        refine ⟨?_, by rw [hrest.2, hp.2]⟩
        rw [hrest.1, hp.1, hvend]
        exact mapGet_mapSet_self _ _ _
    · have hmem2 : v ∈ vs2 := by
        cases List.mem_cons.mp hmem with
        | inl h => exact absurd h hvw
        | inr h => exact h
      have hwv : w ≠ v := fun h => hvw h.symm
      simp only [runVendors]
      have hihres := ih (processVendor st w (out w)).1 hmem2 hnd.2 hout2
      have hcne := processVendor_cache_ne st w (out w) v
        (hout w (List.mem_cons_self w vs2)) hwv
      refine ⟨?_, ?_, ?_⟩
      · intro msg hmsg
        have h1 := (hihres.1 msg hmsg)
        exact ⟨by rw [h1.1, hcne], h1.2⟩
      · intro d hd herr
        have h1 := hihres.2.1 d hd herr
        exact ⟨by rw [h1.1, hcne], h1.2⟩
      · intro d hd herr
        exact hihres.2.2 d hd herr

/-- C1 (amended): for every cycle actually dispatched by `scrapeAll` and
every vendor `v` of the cycle, a run that settles with a truthy error (a
rejected promise, or a returned `VendorPriceData` whose `error` is set and
nonempty) leaves the cache entry of `v` exactly as it was before the cycle
and sets the `ProgressRecord` of `v` to `error, 100` carrying the message;
a run that settles with a falsy `error` field replaces the cache entry of
`v` with the new snapshot and sets the `ProgressRecord` of `v` to
`completed, 100`.  (As stated, with `carries an error` read as `error field
present`, the claim fails on an empty-string error: see the
counterexample.) -/
theorem scrapeAll_per_vendor_policy (st : OrchestratorState) (vendors : List String)
    (out : String → Except String VendorPriceData) (aggFails : Bool) (v : String)
    (hidle : st.isScraping = false) (hmem : v ∈ vendors) (hnd : vendors.Nodup)
    (hout : ∀ w ∈ vendors, ∀ d, out w = .ok d → d.vendor = w) :
    (∀ msg, out v = .error msg →
       mapGet (scrapeAllModel st vendors out aggFails).1.cachedPrices v =
         mapGet st.cachedPrices v ∧
       mapGet (scrapeAllModel st vendors out aggFails).1.scrapingProgress v =
         some ⟨v, .error, 100, some msg⟩) ∧
    (∀ d e, out v = .ok d → d.error = some e → e ≠ "" →
       mapGet (scrapeAllModel st vendors out aggFails).1.cachedPrices v =
         mapGet st.cachedPrices v ∧
       mapGet (scrapeAllModel st vendors out aggFails).1.scrapingProgress v =
         some ⟨v, .error, 100, some e⟩) ∧
    (∀ d, out v = .ok d → jsTruthyStr d.error = false →
       mapGet (scrapeAllModel st vendors out aggFails).1.cachedPrices v = some d ∧
       mapGet (scrapeAllModel st vendors out aggFails).1.scrapingProgress v =
         some ⟨v, .completed, 100, none⟩) := by
  have hstate : (scrapeAllModel st vendors out aggFails).1 =
      { (runVendors (dispatchState st vendors) vendors out).1 with isScraping := false } := by
    simp only [scrapeAllModel]
    rw [if_neg (by rw [hidle]; exact Bool.false_ne_true)]
  have hdc : (dispatchState st vendors).cachedPrices = st.cachedPrices := rfl
  have hrun := runVendors_vendor (dispatchState st vendors) vendors out v hmem hnd hout
  refine ⟨?_, ?_, ?_⟩
  · intro msg hmsg
    have h1 := hrun.1 msg hmsg
    rw [hstate]
    exact ⟨by rw [← hdc]; exact h1.1, h1.2⟩
  · intro d e hd herr hne
    have htruthy : jsTruthyStr d.error = true := by simp [jsTruthyStr, herr, hne]
    have h1 := hrun.2.1 d hd htruthy
    rw [hstate]
    exact ⟨by rw [← hdc]; exact h1.1, by rw [h1.2, herr]⟩
  · intro d hd herr
    have h1 := hrun.2.2 d hd herr
    rw [hstate]
    exact ⟨h1.1, h1.2⟩

/-- C1 witness: a one-vendor cycle with a clean snapshot replaces the cache
entry and completes the progress record. -/
theorem scrapeAll_per_vendor_policy_witness :
    mapGet (scrapeAllModel {} ["A"]
      (fun _ => .ok { vendor := "A", url := "u", scrapedAt := 0, prices := [] })
      false).1.cachedPrices "A" =
      some { vendor := "A", url := "u", scrapedAt := 0, prices := [] } ∧
    mapGet (scrapeAllModel {} ["A"]
      (fun _ => .ok { vendor := "A", url := "u", scrapedAt := 0, prices := [] })
      false).1.scrapingProgress "A" = some ⟨"A", .completed, 100, none⟩ :=
  (scrapeAll_per_vendor_policy {} ["A"]
      (fun _ => .ok { vendor := "A", url := "u", scrapedAt := 0, prices := [] })
      false "A" rfl (by decide) (by decide)
      (fun w hw d hd => by
        have hda : d = { vendor := "A", url := "u", scrapedAt := 0, prices := [] } := by
          injection hd with h2
          exact h2.symm
        have hwa : w = "A" := by simpa using hw
        rw [hda, hwa])).2.2
    { vendor := "A", url := "u", scrapedAt := 0, prices := [] } rfl rfl

/-- C1 counterexample: a snapshot carrying `error = ""` has its error field
set, yet `if (data.error)` is false on the empty string, so the cycle
treats it as a success — the cache entry for the vendor is overwritten
(it was absent before) and the progress record reads `completed`, not
`error`; the claim as stated is false for this input. -/
theorem scrapeAll_empty_error_counterexample :
    (({ vendor := "A", url := "u", scrapedAt := 0, prices := [], error := some "" } : VendorPriceData).error).isSome = true ∧
    mapGet ({} : OrchestratorState).cachedPrices "A" = none ∧
    mapGet (scrapeAllModel {} ["A"]
      (fun _ => .ok { vendor := "A", url := "u", scrapedAt := 0, prices := [], error := some "" }) false).1.cachedPrices "A" =
      some { vendor := "A", url := "u", scrapedAt := 0, prices := [], error := some "" } ∧
    mapGet (scrapeAllModel {} ["A"]
      (fun _ => .ok { vendor := "A", url := "u", scrapedAt := 0, prices := [], error := some "" }) false).1.scrapingProgress "A" =
      some ⟨"A", .completed, 100, none⟩ := by
  refine ⟨by decide, by decide, by decide, by decide⟩

/-- C2: `scrapeAll` is single-flight: a call made while `isScraping` is set
returns the current cache contents and leaves the whole state (cache and
in-flight progress table) untouched; the flag is up on the state handed to
the vendor runs; and a dispatched cycle ends with the flag lowered whether
or not the aggregation step throws. -/
theorem scrapeAll_single_flight (st : OrchestratorState) (vendors : List String)
    (out : String → Except String VendorPriceData) (aggFails : Bool) :
    (st.isScraping = true →
       scrapeAllModel st vendors out aggFails = (st, .ok (getCurrentResults st))) ∧
    ((dispatchState st vendors).isScraping = true) ∧
    (st.isScraping = false →
       (scrapeAllModel st vendors out aggFails).1.isScraping = false) := by
  refine ⟨?_, rfl, ?_⟩
  · intro h
    simp only [scrapeAllModel]
    rw [if_pos h]
  · intro h
    simp only [scrapeAllModel]
    rw [if_neg (by rw [h]; exact Bool.false_ne_true)]

/-- C2 witness: a trigger while a cycle is marked in flight returns the
current results and changes nothing, even with a throwing aggregation. -/
theorem scrapeAll_single_flight_witness :
    scrapeAllModel { isScraping := true } ["A"] (fun _ => .error "late") true =
      ({ isScraping := true }, .ok (getCurrentResults { isScraping := true })) :=
  (scrapeAll_single_flight { isScraping := true } ["A"] (fun _ => .error "late") true).1 rfl

/-- The per-vendor step keeps the cache free of truthy errors. -/
theorem processVendor_cacheOk (st : OrchestratorState) (w : String)
    (out : Except String VendorPriceData) (h : cacheOk st = true) :
    cacheOk (processVendor st w out).1 = true := by
  cases out with
  | error msg => exact h
  | ok d =>
    simp only [processVendor]
    by_cases hd : jsTruthyStr d.error = true
    · rw [if_pos hd]; exact h
    · rw [if_neg hd]
      exact all_mapSet _ _ _ _ h (by simp_all)

/-- All vendor runs keep the cache free of truthy errors. -/
theorem runVendors_cacheOk (st : OrchestratorState) (vs : List String)
    (out : String → Except String VendorPriceData) (h : cacheOk st = true) :
    cacheOk (runVendors st vs out).1 = true := by
  induction vs generalizing st with
  | nil => exact h
  | cons w vs2 ih =>
    simp only [runVendors]
    exact ih _ (processVendor_cacheOk st w (out w) h)

/-- C10 (amended): starting from the empty cache, every `scrapeAll` cycle
preserves the invariant that no cached `VendorPriceData` has a truthy
(set and nonempty) `error` — `scrapeAll` writes a snapshot only when
`data.error` is falsy — and under that invariant `getCurrentResults`
reports `success = true` with `data` set for every cached vendor, so a
`success:false` result can never appear in its output.  (The stronger
stated invariant, that the `error` field is never set at all, fails for an
empty-string error: see the counterexample.) -/
theorem cache_error_free_invariant :
    (cacheOk {} = true) ∧
    (∀ (st : OrchestratorState) (vendors : List String)
       (out : String → Except String VendorPriceData) (aggFails : Bool),
       cacheOk st = true → cacheOk (scrapeAllModel st vendors out aggFails).1 = true) ∧
    (∀ st : OrchestratorState, cacheOk st = true →
       ∀ r ∈ getCurrentResults st, r.success = true ∧ r.data.isSome = true) := by
  refine ⟨rfl, ?_, ?_⟩
  · intro st vendors out aggFails h
    simp only [scrapeAllModel]
    by_cases hs : st.isScraping = true
    · rw [if_pos hs]; exact h
    · rw [if_neg hs]
      exact runVendors_cacheOk (dispatchState st vendors) vendors out h
  · intro st h r hr
    simp only [getCurrentResults, List.mem_map] at hr
    obtain ⟨kv, hkv, rfl⟩ := hr
    rw [cacheOk, List.all_eq_true] at h
    have hfalse : jsTruthyStr kv.2.error = false := by
      have := h kv hkv
      simpa using this
    refine ⟨by simp [hfalse], ?_⟩
    simp only [hfalse, Bool.false_eq_true, if_false, Option.isSome_some]

/-- C10 witness: the invariant survives a concrete successful cycle, and
the read-out of a concretely populated cache is all-success. -/
theorem cache_error_free_invariant_witness :
    cacheOk (scrapeAllModel {} ["A"]
      (fun _ => .ok { vendor := "A", url := "u", scrapedAt := 0, prices := [] })
      false).1 = true :=
  cache_error_free_invariant.2.1 {} ["A"]
    (fun _ => .ok { vendor := "A", url := "u", scrapedAt := 0, prices := [] })
    false (by decide)

/-- C10 counterexample: after a cycle whose vendor resolves with
`error = ""`, the cache holds a value whose `error` field is set — the
stated invariant (error field unset for every cached value) is false —
although `getCurrentResults` still reports it as a success. -/
theorem cache_error_field_counterexample :
    mapGet (scrapeAllModel {} ["A"]
      (fun _ => .ok { vendor := "A", url := "u", scrapedAt := 0, prices := [], error := some "" }) false).1.cachedPrices "A" =
      some { vendor := "A", url := "u", scrapedAt := 0, prices := [], error := some "" } ∧
    (({ vendor := "A", url := "u", scrapedAt := 0, prices := [], error := some "" } : VendorPriceData).error).isSome = true ∧
    getCurrentResults (scrapeAllModel {} ["A"]
      (fun _ => .ok { vendor := "A", url := "u", scrapedAt := 0, prices := [], error := some "" }) false).1 =
      [{ vendor := "A", success := true,
         data := some { vendor := "A", url := "u", scrapedAt := 0, prices := [], error := some "" }, error := some "" }] := by
  refine ⟨by decide, by decide, by decide⟩

end Aurodomus
